import Mathlib

/-!
Verification of the pizza-validator repository (src/validation.ts, src/cli.ts).

The validator is a Zod schema (PizzaSchema) wrapped by validatePizza.
The semantics is embedded shallowly:

* JavaScript values reaching the validator are modelled by Json
  (JSON values plus undef for the JavaScript value undefined); numbers are
  modelled by Rat (the claims under study involve no NaN, Infinity or
  float-rounding behaviour).
* Objects are association lists of string keys; lookups are first-match
  (inputs coming from JSON.parse have no duplicate keys).
* Each field of PizzaSchema becomes a checking function from the
  looked-up value to the list of Zod issues it contributes, in the
  declaration order of the schema (size, crust, isDeepDish, toppings);
  message texts follow the Zod defaults ("Required",
  "Expected <t>, received <u>") and the custom messages in the source.
* The refine on toppings only runs when the inner parse of
  z.array(z.string()).optional() succeeded, so a structurally
  ill-typed toppings never produces the combined forbidden-toppings
  message; this is reflected directly in checkToppings.
* validatePizza mirrors safeParse plus the error formatting of the
  source: success returns the normalized record, failure joins the
  renderings (field path joined by periods, then ": ", then the message)
  with "; ".
* The CLI (src/cli.ts) is modelled by runCli over the outcome of the
  file read and JSON parse, which the claims treat as opaque platform
  steps; the dispatch, message texts and exit codes come from cli.ts.
-/

/-- A JavaScript value as seen by validatePizza: JSON values plus
undefined. Numbers are rationals (no NaN or Infinity modelled). -/
inductive Json where
  | null
  | undef
  | bool (b : Bool)
  | num (q : Rat)
  | str (s : String)
  | arr (xs : List Json)
  | obj (fields : List (String × Json))

/-- The Zod helper getParsedType, used in the default invalid-type
messages of Zod. -/
def jsonTypeName : Json → String
  | .null => "null"
  | .undef => "undefined"
  | .bool _ => "boolean"
  | .num _ => "number"
  | .str _ => "string"
  | .arr _ => "array"
  | .obj _ => "object"

/-- First-match lookup of a key in the field list of a JS object. -/
def lookupField (fields : List (String × Json)) (k : String) : Option Json :=
  match fields with
  | [] => none
  | (k', v) :: rest => if k' = k then some v else lookupField rest k

/-- One Zod issue: its path (array indexes already rendered in decimal,
as the join by periods would) and its message. -/
structure Issue where
  path : List String
  message : String
deriving DecidableEq

/-- The constant INVALID_TOPPINGS of src/validation.ts. -/
def INVALID_TOPPINGS : List String := ["spinach", "mushroom", "chicken", "turkey"]

/-- ASCII lower-casing of one character. -/
def lowerChar (c : Char) : Char :=
  if c.toNat ≥ 65 ∧ c.toNat ≤ 90 then Char.ofNat (c.toNat + 32) else c

/-- The call topping.toLowerCase() of the source: the forbidden words and
the inputs of the claims are ASCII, where the JavaScript toLowerCase is
exactly per-character ASCII lower-casing. -/
def lowerStr (s : String) : String := ⟨s.data.map lowerChar⟩

/-- A topping is forbidden when its lower-casing is in INVALID_TOPPINGS. -/
def isForbidden (t : String) : Bool := INVALID_TOPPINGS.contains (lowerStr t)

/-- The predicate inside the some(...) of the refine of
PizzaSchema.toppings, on a raw array element. Non-strings cannot reach it
on the success path. -/
def jsonIsForbiddenTopping : Json → Bool
  | .str s => isForbidden s
  | _ => false

/-- The refine message built in the source from INVALID_TOPPINGS joined
by ", ". -/
def toppingsMessage : String :=
  "the following toppings are invalid: " ++ String.intercalate ", " INVALID_TOPPINGS ++ "."

/-- The custom message on the crust enum (a Zod create-param message
applies to every issue of the field: missing, wrong type, wrong value). -/
def crustMessage : String := "crust must be either \"stuffed\" or \"normal\""

/-- Issues of the field size, a z.number().positive(...) with the custom
message of the source, on the looked-up value. A missing (or undefined)
field is the Zod "Required"; a non-number gets the default invalid-type
message; the custom message fires only on the positivity check. -/
def checkSize : Option Json → List Issue
  | none => [⟨["size"], "Required"⟩]
  | some .undef => [⟨["size"], "Required"⟩]
  | some (.num q) => if 0 < q then [] else [⟨["size"], "pizza size must be a positive number"⟩]
  | some v => [⟨["size"], "Expected number, received " ++ jsonTypeName v⟩]

/-- Issues of the field crust, a z.enum of "stuffed" and "normal" with a
custom message. -/
def checkCrust : Option Json → List Issue
  | some (.str s) => if s = "stuffed" ∨ s = "normal" then [] else [⟨["crust"], crustMessage⟩]
  | _ => [⟨["crust"], crustMessage⟩]

/-- Issues of the field isDeepDish, a z.boolean().optional().default(false). -/
def checkIsDeepDish : Option Json → List Issue
  | none => []
  | some .undef => []
  | some (.bool _) => []
  | some v => [⟨["isDeepDish"], "Expected boolean, received " ++ jsonTypeName v⟩]

/-- Issues of one element of z.array(z.string()) at index k. -/
def elemIssue (k : Nat) : Json → List Issue
  | .str _ => []
  | .undef => [⟨["toppings", toString k], "Required"⟩]
  | v => [⟨["toppings", toString k], "Expected string, received " ++ jsonTypeName v⟩]

/-- All element issues of the toppings array, left to right, indexes
starting at k. -/
def toppingElemIssues : Nat → List Json → List Issue
  | _, [] => []
  | k, x :: xs => elemIssue k x ++ toppingElemIssues (k + 1) xs

/-- Issues of the field toppings. The refine runs only when the inner
parse of z.array(z.string()).optional() succeeded (Zod aborts a
refinement of ZodEffects when the wrapped parse is invalid), so element
or type issues suppress the forbidden-toppings content check. -/
def checkToppings : Option Json → List Issue
  | none => []
  | some .undef => []
  | some (.arr xs) =>
      let elems := toppingElemIssues 0 xs
      if elems.isEmpty then
        if xs.any jsonIsForbiddenTopping then [⟨["toppings"], toppingsMessage⟩] else []
      else elems
  | some v => [⟨["toppings"], "Expected array, received " ++ jsonTypeName v⟩]

/-- All issues of PizzaSchema.safeParse on an object: the four fields in
declaration order. -/
def pizzaIssuesObj (fields : List (String × Json)) : List Issue :=
  checkSize (lookupField fields "size") ++
  checkCrust (lookupField fields "crust") ++
  checkIsDeepDish (lookupField fields "isDeepDish") ++
  checkToppings (lookupField fields "toppings")

/-- All issues of PizzaSchema.safeParse on an arbitrary value: a
non-object input yields the single Zod root invalid-type issue
("Required" for undefined) with an empty path. -/
def pizzaIssues : Json → List Issue
  | .obj fields => pizzaIssuesObj fields
  | .undef => [⟨[], "Required"⟩]
  | v => [⟨[], "Expected object, received " ++ jsonTypeName v⟩]

/-- The validated, normalized pizza record (the type Pizza of the
source): isDeepDish made explicit by the default(false), toppings kept
optional. -/
structure Pizza where
  size : Rat
  crust : String
  isDeepDish : Bool
  toppings : Option (List String)
deriving DecidableEq

/-- Projection used by buildPizza in branches that are unreachable when
parsing succeeded. -/
def jsonToStr : Json → String
  | .str s => s
  | _ => ""

/-- The parsed data returned by PizzaSchema.safeParse on success: the
four declared fields, defaults applied, unknown keys stripped. The
fall-through branches are never reached when pizzaIssues is empty. -/
def buildPizza : Json → Pizza
  | .obj fields =>
      { size := match lookupField fields "size" with
          | some (.num q) => q
          | _ => 0
        crust := match lookupField fields "crust" with
          | some (.str c) => c
          | _ => ""
        isDeepDish := match lookupField fields "isDeepDish" with
          | some (.bool b) => b
          | _ => false
        toppings := match lookupField fields "toppings" with
          | some (.arr xs) => some (xs.map jsonToStr)
          | _ => none }
  | _ => ⟨0, "", false, none⟩

/-- The discriminated union PizzaValidationResult returned by
validatePizza. -/
inductive PizzaValidationResult where
  | isPizza (pizza : Pizza)
  | notPizza (errors : String)
deriving DecidableEq

/-- Rendering of one issue in the error branch of validatePizza: the
path joined by periods and followed by ": " when non-empty, then the
message. -/
def renderIssue (i : Issue) : String :=
  match i.path with
  | [] => i.message
  | ps => String.intercalate "." ps ++ ": " ++ i.message

/-- The function validatePizza of src/validation.ts: safeParse, then
either the normalized record or all issue renderings joined with "; ". -/
def validatePizza (j : Json) : PizzaValidationResult :=
  let issues := pizzaIssues j
  if issues.isEmpty then .isPizza (buildPizza j)
  else .notPizza (String.intercalate "; " (issues.map renderIssue))

/-- The field list of the normalized record, re-read as a JSON object
(the shape the CLI prints and a caller would re-validate): the declared
keys in schema order, the toppings key present exactly when the record
carries toppings. -/
def pizzaFields (p : Pizza) : List (String × Json) :=
  [("size", Json.num p.size), ("crust", Json.str p.crust),
   ("isDeepDish", Json.bool p.isDeepDish)] ++
    match p.toppings with
    | none => []
    | some ts => [("toppings", Json.arr (ts.map Json.str))]

/-- The normalized record as a JSON value. -/
def pizzaToJson (p : Pizza) : Json := .obj (pizzaFields p)

/-- Decides whether a present toppings value is structurally ill-typed
for z.array(z.string()): not an array, or an array with a non-string
element. (A present undefined is treated as absent by optional().) -/
def isStrJson : Json → Bool
  | .str _ => true
  | _ => false

/-- True when the value violates the array-of-strings structure. -/
def toppingsIllTyped : Json → Bool
  | .undef => false
  | .arr xs => xs.any (fun x => !isStrJson x)
  | _ => true

/-- The message of the element issue for a non-string array element. -/
def elemTypeMsg : Json → String
  | .undef => "Required"
  | v => "Expected string, received " ++ jsonTypeName v

/-- Decides whether the size field violates its rules (missing,
non-number, or a number that is not positive). -/
def sizeViolation : Option Json → Bool
  | none => true
  | some .undef => true
  | some (.num q) => decide (q ≤ 0)
  | some _ => true

/-- Substring helper: does the text start with the pattern? -/
def startsWithChars : List Char → List Char → Bool
  | [], _ => true
  | _ :: _, [] => false
  | p :: ps, t :: ts => p == t && startsWithChars ps ts

/-- Substring helper: does the pattern occur anywhere in the text? -/
def hasSubChars (pat : List Char) : List Char → Bool
  | [] => startsWithChars pat []
  | t :: ts => startsWithChars pat (t :: ts) || hasSubChars pat ts

/-- Occurrence of sub as a substring of s. -/
def strContains (s sub : String) : Bool := hasSubChars sub.data s.data

/-! ## The CLI (src/cli.ts)

The file read and JSON.parse are platform steps; the claims about the
CLI concern how cli.ts dispatches on their outcome, so the outcomes are
modelled explicitly and runCli gives the dispatch, messages and exit
codes of main(). -/

/-- Outcome of JSON.parse on the file content: a value, or a
SyntaxError carrying the parser message. -/
inductive ParseOutcome where
  | ok (j : Json)
  | jsonError (msg : String)

/-- Outcome of readFileSync: the ENOENT error, some other I/O Error
carrying a message, a thrown non-Error value (stringified), or the file
content handed on to JSON.parse. -/
inductive FileOutcome where
  | notFound
  | readError (msg : String)
  | unknownThrown (s : String)
  | content (p : ParseOutcome)

/-- An invocation of main(): help is chosen when --help or -h is passed
or no positional argument is given; otherwise the first positional is
the file path. -/
inductive CliInvocation where
  | help
  | file (path : String) (fs : FileOutcome)

/-- Observable behaviour of one CLI run: the lines written to stdout and
to stderr (one per console call) and the process exit code. -/
structure CliOutcome where
  stdout : List String
  stderr : List String
  exitCode : Nat
deriving DecidableEq

/-- The help text printed by main(). -/
def usageLines : List String :=
  ["usage: pizza-validator <json-file>",
   "validates a JSON file to check if it contains a valid pizza.",
   "\noptions:",
   "  -h, --help    show this help message"]

/-- Rendering of a JSON number by JSON.stringify; exact on integral
values, which is all the development relies on. -/
def jsNum (q : Rat) : String := if q.den = 1 then toString q.num else toString q

/-- A JSON string literal (the strings involved need no escaping). -/
def quoteStr (s : String) : String := "\"" ++ s ++ "\""

/-- A JSON boolean literal. -/
def boolStr (b : Bool) : String := if b then "true" else "false"

/-- The toppings array as JSON.stringify(·, null, 2) renders it at
nesting depth one: empty arrays inline, otherwise one element per line
indented four spaces. -/
def toppingsArrayLit (ts : List String) : String :=
  match ts with
  | [] => "[]"
  | _ => "[\n" ++ String.intercalate ",\n" (ts.map (fun t => "    " ++ quoteStr t)) ++ "\n  ]"

/-- The key/rendered-value pairs JSON.stringify visits on the normalized
record: the own keys of the object, so toppings is absent exactly when
the record has no toppings. -/
def pizzaEntries (p : Pizza) : List (String × String) :=
  [("size", jsNum p.size), ("crust", quoteStr p.crust),
   ("isDeepDish", boolStr p.isDeepDish)] ++
    match p.toppings with
    | none => []
    | some ts => [("toppings", toppingsArrayLit ts)]

/-- JSON.stringify(pizza, null, 2): two-space indent, one key per line. -/
def stringifyPizza (p : Pizza) : String :=
  "\x7b\n" ++
    String.intercalate ",\n"
      ((pizzaEntries p).map (fun e => "  " ++ quoteStr e.1 ++ ": " ++ e.2)) ++
  "\n\x7d"

/-- The function main() of src/cli.ts, as a function of the invocation
and the platform outcomes. -/
def runCli : CliInvocation → CliOutcome
  | .help => ⟨usageLines, [], 0⟩
  | .file path .notFound =>
      ⟨[], ["Error: File \"" ++ path ++ "\" not found."], 1⟩
  | .file path (.readError msg) =>
      ⟨[], ["Error reading file \"" ++ path ++ "\":", msg], 1⟩
  | .file _ (.unknownThrown s) =>
      ⟨[], ["Unknown error: " ++ s], 1⟩
  | .file path (.content (.jsonError msg)) =>
      ⟨[], ["Error: Invalid JSON in file \"" ++ path ++ "\".", msg], 1⟩
  | .file _ (.content (.ok j)) =>
      match validatePizza j with
      | .isPizza p => ⟨["✓ Valid pizza!", stringifyPizza p], [], 0⟩
      | .notPizza e => ⟨[], ["✗ Invalid pizza:", e], 1⟩

/-! ## Helper lemmas -/

theorem toppingElemIssues_map_str (n : Nat) (ts : List String) :
    toppingElemIssues n (ts.map Json.str) = [] := by
  induction ts generalizing n with
  | nil => rfl
  | cons t ts ih => simp [toppingElemIssues, elemIssue, ih]

theorem any_map_str (ts : List String) :
    (ts.map Json.str).any jsonIsForbiddenTopping = ts.any isForbidden := by
  induction ts with
  | nil => rfl
  | cons t ts ih => simp [jsonIsForbiddenTopping, ih]

theorem jsonToStr_comp_str : jsonToStr ∘ Json.str = id :=
  funext fun _ => rfl

theorem map_jsonToStr_map_str (ts : List String) :
    (ts.map Json.str).map jsonToStr = ts := by
  simp [jsonToStr_comp_str]

/-- Success characterization: on an object whose four declared fields
satisfy the schema, validatePizza returns the normalized record with the
supplied fields kept exactly and isDeepDish defaulted to false exactly
when absent. -/
theorem validate_success_of_fields (fields : List (String × Json)) (q : Rat) (c : String)
    (dd : Option Bool) (tops : Option (List String))
    (hq : lookupField fields "size" = some (.num q)) (hpos : 0 < q)
    (hc : lookupField fields "crust" = some (.str c))
    (hcv : c = "stuffed" ∨ c = "normal")
    (hdd : lookupField fields "isDeepDish" = dd.map Json.bool)
    (ht : lookupField fields "toppings" = tops.map (fun ts => Json.arr (ts.map Json.str)))
    (hforb : (tops.getD []).all (fun t => !isForbidden t) = true) :
    validatePizza (.obj fields) = .isPizza ⟨q, c, dd.getD false, tops⟩ := by
  have hissues : pizzaIssuesObj fields = [] := by
    unfold pizzaIssuesObj
    rw [hq, hc, hdd, ht]
    have h1 : checkSize (some (Json.num q)) = [] := by simp [checkSize, hpos]
    have h2 : checkCrust (some (Json.str c)) = [] := by simp [checkCrust, hcv]
    have h3 : checkIsDeepDish (dd.map Json.bool) = [] := by
      cases dd <;> simp [checkIsDeepDish]
    have h4 : checkToppings (tops.map (fun ts => Json.arr (ts.map Json.str))) = [] := by
      cases tops with
      | none => simp [checkToppings]
      | some ts =>
        have hall : ts.any isForbidden = false := by
          simp only [Option.getD, List.all_eq_true] at hforb
          simp only [List.any_eq_false]
          intro t htmem
          simpa using hforb t htmem
        simp [checkToppings, toppingElemIssues_map_str, any_map_str, hall]
    simp [h1, h2, h3, h4]
  have hbuild : buildPizza (.obj fields) = ⟨q, c, dd.getD false, tops⟩ := by
    simp only [buildPizza]
    rw [hq, hc, hdd, ht]
    cases dd <;> cases tops <;> simp [jsonToStr_comp_str]
  simp [validatePizza, pizzaIssues, hissues, hbuild]

/-- When safeParse produced at least one issue, validatePizza joins the
renderings with "; ". -/
theorem validate_fail_of_cons (j : Json) (i : Issue) (rest : List Issue)
    (h : pizzaIssues j = i :: rest) :
    validatePizza j = .notPizza (String.intercalate "; " ((i :: rest).map renderIssue)) := by
  simp [validatePizza, h]

theorem checkSize_nil (o : Option Json) (h : checkSize o = []) :
    ∃ q, o = some (Json.num q) ∧ 0 < q := by
  match o with
  | none => simp [checkSize] at h
  | some .null => simp [checkSize] at h
  | some .undef => simp [checkSize] at h
  | some (.bool b) => simp [checkSize] at h
  | some (.num q) =>
      by_cases hq : 0 < q
      · exact ⟨q, rfl, hq⟩
      · simp [checkSize, hq] at h
  | some (.str s) => simp [checkSize] at h
  | some (.arr xs) => simp [checkSize] at h
  | some (.obj f) => simp [checkSize] at h

theorem checkCrust_nil (o : Option Json) (h : checkCrust o = []) :
    ∃ c, o = some (Json.str c) ∧ (c = "stuffed" ∨ c = "normal") := by
  match o with
  | none => simp [checkCrust] at h
  | some .null => simp [checkCrust] at h
  | some .undef => simp [checkCrust] at h
  | some (.bool b) => simp [checkCrust] at h
  | some (.num q) => simp [checkCrust] at h
  | some (.str s) =>
      by_cases hs : s = "stuffed" ∨ s = "normal"
      · exact ⟨s, rfl, hs⟩
      · simp [checkCrust, hs] at h
  | some (.arr xs) => simp [checkCrust] at h
  | some (.obj f) => simp [checkCrust] at h

theorem toppingElemIssues_nil_all_str (xs : List Json) (n : Nat)
    (h : toppingElemIssues n xs = []) : ∀ x ∈ xs, ∃ s, x = Json.str s := by
  induction xs generalizing n with
  | nil => simp
  | cons x xs ih =>
      intro y hy
      have hsplit : elemIssue n x = [] ∧ toppingElemIssues (n + 1) xs = [] := by
        rw [toppingElemIssues] at h
        exact List.append_eq_nil.mp h
      rcases List.mem_cons.mp hy with rfl | hy
      · cases y <;> first
          | exact ⟨_, rfl⟩
          | simp [elemIssue] at hsplit
      · exact ih (n + 1) hsplit.2 y hy

theorem checkToppings_nil (o : Option Json) (h : checkToppings o = []) :
    (o = none ∨ o = some .undef) ∨
      ∃ xs, o = some (Json.arr xs) ∧ toppingElemIssues 0 xs = [] ∧
        xs.any jsonIsForbiddenTopping = false := by
  match o with
  | none => exact Or.inl (Or.inl rfl)
  | some .undef => exact Or.inl (Or.inr rfl)
  | some .null => simp [checkToppings] at h
  | some (.bool b) => simp [checkToppings] at h
  | some (.num q) => simp [checkToppings] at h
  | some (.str s) => simp [checkToppings] at h
  | some (.obj f) => simp [checkToppings] at h
  | some (.arr xs) =>
      refine Or.inr ⟨xs, rfl, ?_⟩
      by_cases he : toppingElemIssues 0 xs = []
      · by_cases hf : xs.any jsonIsForbiddenTopping
        · exfalso
          simp [checkToppings, he, hf] at h
        · exact ⟨he, by simpa using hf⟩
      · exfalso
        have h2 : checkToppings (some (Json.arr xs)) = toppingElemIssues 0 xs := by
          simp [checkToppings, he]
        rw [h2] at h
        exact he h

/-- validatePizza succeeds only on objects, with no issues, returning
the built record. -/
theorem validate_isPizza_inv (j : Json) (p : Pizza)
    (h : validatePizza j = .isPizza p) :
    ∃ fields, j = .obj fields ∧ pizzaIssuesObj fields = [] ∧ p = buildPizza (.obj fields) := by
  match j with
  | .null => simp [validatePizza, pizzaIssues] at h
  | .undef => simp [validatePizza, pizzaIssues] at h
  | .bool b => simp [validatePizza, pizzaIssues] at h
  | .num q => simp [validatePizza, pizzaIssues] at h
  | .str s => simp [validatePizza, pizzaIssues] at h
  | .arr xs => simp [validatePizza, pizzaIssues] at h
  | .obj fields =>
      by_cases he : (pizzaIssues (Json.obj fields)).isEmpty
      · refine ⟨fields, rfl, ?_, ?_⟩
        · simpa [pizzaIssues, List.isEmpty_iff] using he
        · simp [validatePizza, he] at h
          exact h.symm
      · simp [validatePizza, he] at h

theorem lookupField_pizzaFields_size (p : Pizza) :
    lookupField (pizzaFields p) "size" = some (Json.num p.size) := rfl

theorem lookupField_pizzaFields_crust (p : Pizza) :
    lookupField (pizzaFields p) "crust" = some (Json.str p.crust) := rfl

theorem lookupField_pizzaFields_isDeepDish (p : Pizza) :
    lookupField (pizzaFields p) "isDeepDish" = some (Json.bool p.isDeepDish) := rfl

theorem lookupField_pizzaFields_toppings (p : Pizza) :
    lookupField (pizzaFields p) "toppings" =
      p.toppings.map (fun ts => Json.arr (ts.map Json.str)) := by
  cases h : p.toppings <;> simp [pizzaFields, h, lookupField]

theorem lookupField_insert_ne (pre post : List (String × Json)) (k' : String) (v : Json)
    (k : String) (hne : k' ≠ k) :
    lookupField (pre ++ (k', v) :: post) k = lookupField (pre ++ post) k := by
  induction pre with
  | nil => simp [lookupField, hne]
  | cons a pre ih =>
      obtain ⟨ak, av⟩ := a
      by_cases hak : ak = k <;> simp [lookupField, hak, ih]

/-- validatePizza looks only at the four declared keys. -/
theorem validatePizza_obj_congr (f g : List (String × Json))
    (hs : lookupField f "size" = lookupField g "size")
    (hc : lookupField f "crust" = lookupField g "crust")
    (hd : lookupField f "isDeepDish" = lookupField g "isDeepDish")
    (ht : lookupField f "toppings" = lookupField g "toppings") :
    validatePizza (.obj f) = validatePizza (.obj g) := by
  simp only [validatePizza, pizzaIssues, pizzaIssuesObj, buildPizza, hs, hc, hd, ht]

theorem validate_fail_of_ne_nil (j : Json) (h : pizzaIssues j ≠ []) :
    ∃ e, validatePizza j = .notPizza e := by
  have he : (pizzaIssues j).isEmpty = false := by
    simpa [List.isEmpty_iff] using h
  refine ⟨String.intercalate "; " ((pizzaIssues j).map renderIssue), ?_⟩
  simp [validatePizza, he]

theorem checkSize_msgs (o : Option Json) (i : Issue) (hi : i ∈ checkSize o) :
    i.message ≠ toppingsMessage := by
  match o with
  | none => simp [checkSize] at hi; subst hi; dsimp only [jsonTypeName]; decide
  | some .null => simp [checkSize] at hi; subst hi; dsimp only [jsonTypeName]; decide
  | some .undef => simp [checkSize] at hi; subst hi; dsimp only [jsonTypeName]; decide
  | some (.bool b) => simp [checkSize] at hi; subst hi; dsimp only [jsonTypeName]; decide
  | some (.num q) =>
      by_cases hq : 0 < q
      · simp [checkSize, hq] at hi
      · simp [checkSize, hq] at hi; subst hi; dsimp only [jsonTypeName]; decide
  | some (.str s) => simp [checkSize] at hi; subst hi; dsimp only [jsonTypeName]; decide
  | some (.arr xs) => simp [checkSize] at hi; subst hi; dsimp only [jsonTypeName]; decide
  | some (.obj f) => simp [checkSize] at hi; subst hi; dsimp only [jsonTypeName]; decide

theorem checkCrust_msgs (o : Option Json) (i : Issue) (hi : i ∈ checkCrust o) :
    i.message ≠ toppingsMessage := by
  match o with
  | none => simp [checkCrust] at hi; subst hi; dsimp only [jsonTypeName]; decide
  | some .null => simp [checkCrust] at hi; subst hi; dsimp only [jsonTypeName]; decide
  | some .undef => simp [checkCrust] at hi; subst hi; dsimp only [jsonTypeName]; decide
  | some (.bool b) => simp [checkCrust] at hi; subst hi; dsimp only [jsonTypeName]; decide
  | some (.num q) => simp [checkCrust] at hi; subst hi; dsimp only [jsonTypeName]; decide
  | some (.str s) =>
      by_cases hs : s = "stuffed" ∨ s = "normal"
      · simp [checkCrust, hs] at hi
      · simp [checkCrust, hs] at hi; subst hi; dsimp only [jsonTypeName]; decide
  | some (.arr xs) => simp [checkCrust] at hi; subst hi; dsimp only [jsonTypeName]; decide
  | some (.obj f) => simp [checkCrust] at hi; subst hi; dsimp only [jsonTypeName]; decide

theorem checkIsDeepDish_msgs (o : Option Json) (i : Issue) (hi : i ∈ checkIsDeepDish o) :
    i.message ≠ toppingsMessage := by
  match o with
  | none => simp [checkIsDeepDish] at hi
  | some .null => simp [checkIsDeepDish] at hi; subst hi; dsimp only [jsonTypeName]; decide
  | some .undef => simp [checkIsDeepDish] at hi
  | some (.bool b) => simp [checkIsDeepDish] at hi
  | some (.num q) => simp [checkIsDeepDish] at hi; subst hi; dsimp only [jsonTypeName]; decide
  | some (.str s) => simp [checkIsDeepDish] at hi; subst hi; dsimp only [jsonTypeName]; decide
  | some (.arr xs) => simp [checkIsDeepDish] at hi; subst hi; dsimp only [jsonTypeName]; decide
  | some (.obj f) => simp [checkIsDeepDish] at hi; subst hi; dsimp only [jsonTypeName]; decide

theorem elemIssue_msg (k : Nat) (x : Json) (i : Issue) (hi : i ∈ elemIssue k x) :
    i.message ≠ toppingsMessage := by
  match x with
  | .str s => simp [elemIssue] at hi
  | .undef => simp [elemIssue] at hi; subst hi; dsimp only [jsonTypeName]; decide
  | .null => simp [elemIssue] at hi; subst hi; dsimp only [jsonTypeName]; decide
  | .bool b => simp [elemIssue] at hi; subst hi; dsimp only [jsonTypeName]; decide
  | .num q => simp [elemIssue] at hi; subst hi; dsimp only [jsonTypeName]; decide
  | .arr xs => simp [elemIssue] at hi; subst hi; dsimp only [jsonTypeName]; decide
  | .obj f => simp [elemIssue] at hi; subst hi; dsimp only [jsonTypeName]; decide

theorem toppingElemIssues_msgs (xs : List Json) (n : Nat) (i : Issue)
    (hi : i ∈ toppingElemIssues n xs) : i.message ≠ toppingsMessage := by
  induction xs generalizing n with
  | nil => simp [toppingElemIssues] at hi
  | cons x xs ih =>
      rw [toppingElemIssues] at hi
      rcases List.mem_append.mp hi with hi | hi
      · exact elemIssue_msg n x i hi
      · exact ih (n + 1) hi

theorem toppingElemIssues_ne_nil (xs : List Json) (n : Nat)
    (h : xs.any (fun x => !isStrJson x) = true) : toppingElemIssues n xs ≠ [] := by
  intro hnil
  rcases List.any_eq_true.mp h with ⟨x, hx, hbx⟩
  rcases toppingElemIssues_nil_all_str xs n hnil x hx with ⟨s, rfl⟩
  simp [isStrJson] at hbx

theorem checkToppings_illTyped_msgs (v : Json) (hbad : toppingsIllTyped v = true)
    (i : Issue) (hi : i ∈ checkToppings (some v)) : i.message ≠ toppingsMessage := by
  match v with
  | .undef => simp [toppingsIllTyped] at hbad
  | .null => simp [checkToppings] at hi; subst hi; dsimp only [jsonTypeName]; decide
  | .bool b => simp [checkToppings] at hi; subst hi; dsimp only [jsonTypeName]; decide
  | .num q => simp [checkToppings] at hi; subst hi; dsimp only [jsonTypeName]; decide
  | .str s => simp [checkToppings] at hi; subst hi; dsimp only [jsonTypeName]; decide
  | .obj f => simp [checkToppings] at hi; subst hi; dsimp only [jsonTypeName]; decide
  | .arr xs =>
      have hne : toppingElemIssues 0 xs ≠ [] :=
        toppingElemIssues_ne_nil xs 0 (by simpa [toppingsIllTyped] using hbad)
      have h2 : checkToppings (some (Json.arr xs)) = toppingElemIssues 0 xs := by
        simp [checkToppings, hne]
      rw [h2] at hi
      exact toppingElemIssues_msgs xs 0 i hi

theorem elemIssue_of_not_str (k : Nat) (x : Json) (hx : isStrJson x = false) :
    elemIssue k x = [⟨["toppings", toString k], elemTypeMsg x⟩] := by
  cases x <;> first
    | rfl
    | simp [isStrJson] at hx

theorem mem_toppingElemIssues :
    ∀ (xs : List Json) (n k : Nat) (x : Json), xs.get? k = some x → isStrJson x = false →
      (⟨["toppings", toString (n + k)], elemTypeMsg x⟩ : Issue) ∈ toppingElemIssues n xs
  | [], _, k, x, hget, _ => by simp [List.get?] at hget
  | y :: ys, n, 0, x, hget, hx => by
      obtain rfl : y = x := by simpa [List.get?] using hget
      rw [toppingElemIssues]
      apply List.mem_append_left
      rw [Nat.add_zero, elemIssue_of_not_str n _ hx]
      exact List.mem_singleton.mpr rfl
  | y :: ys, n, k + 1, x, hget, hx => by
      rw [toppingElemIssues]
      apply List.mem_append_right
      rw [show n + (k + 1) = (n + 1) + k by omega]
      exact mem_toppingElemIssues ys (n + 1) k x (by simpa [List.get?] using hget) hx

/-! ## Claims -/

/-- C1: every input object with a positive numeric size, a crust equal to
"stuffed" or "normal", an optional boolean isDeepDish and an optional
list of non-forbidden string toppings is accepted; the returned pizza
preserves every supplied field exactly (toppings order included) and
isDeepDish is defaulted to false exactly when the field was absent. -/
theorem claim_valid_input_accepted_and_normalized
    (fields : List (String × Json)) (q : Rat) (c : String)
    (dd : Option Bool) (tops : Option (List String))
    (hq : lookupField fields "size" = some (.num q)) (hpos : 0 < q)
    (hc : lookupField fields "crust" = some (.str c))
    (hcv : c = "stuffed" ∨ c = "normal")
    (hdd : lookupField fields "isDeepDish" = dd.map Json.bool)
    (ht : lookupField fields "toppings" = tops.map (fun ts => Json.arr (ts.map Json.str)))
    (hforb : (tops.getD []).all (fun t => !isForbidden t) = true) :
    validatePizza (.obj fields) = .isPizza ⟨q, c, dd.getD false, tops⟩ :=
  validate_success_of_fields fields q c dd tops hq hpos hc hcv hdd ht hforb

theorem claim_valid_input_accepted_and_normalized_witness :
    validatePizza (.obj [("size", Json.num 12), ("crust", Json.str "normal"),
        ("toppings", Json.arr [Json.str "pepperoni", Json.str "bacon"])]) =
      .isPizza ⟨12, "normal", false, some ["pepperoni", "bacon"]⟩ :=
  claim_valid_input_accepted_and_normalized _ 12 "normal" none (some ["pepperoni", "bacon"])
    rfl (by norm_num) rfl (Or.inr rfl) rfl rfl (by decide)

/-- C2: an otherwise-valid input whose toppings list has an element whose
lower-casing is forbidden (any casing variant) is rejected with the one
combined message that always enumerates the full forbidden set, whatever
and however many forbidden toppings occur. -/
theorem claim_forbidden_topping_combined_message
    (fields : List (String × Json)) (q : Rat) (c : String)
    (dd : Option Bool) (ts : List String)
    (hq : lookupField fields "size" = some (.num q)) (hpos : 0 < q)
    (hc : lookupField fields "crust" = some (.str c))
    (hcv : c = "stuffed" ∨ c = "normal")
    (hdd : lookupField fields "isDeepDish" = dd.map Json.bool)
    (ht : lookupField fields "toppings" = some (Json.arr (ts.map Json.str)))
    (hforb : ts.any isForbidden = true) :
    validatePizza (.obj fields) = .notPizza ("toppings: " ++ toppingsMessage) ∧
    toppingsMessage =
      "the following toppings are invalid: spinach, mushroom, chicken, turkey." := by
  constructor
  · have hiss : pizzaIssues (.obj fields) = [⟨["toppings"], toppingsMessage⟩] := by
      simp only [pizzaIssues, pizzaIssuesObj]
      rw [hq, hc, hdd, ht]
      have h1 : checkSize (some (Json.num q)) = [] := by simp [checkSize, hpos]
      have h2 : checkCrust (some (Json.str c)) = [] := by simp [checkCrust, hcv]
      have h3 : checkIsDeepDish (dd.map Json.bool) = [] := by
        cases dd <;> simp [checkIsDeepDish]
      have h4 : checkToppings (some (Json.arr (ts.map Json.str))) =
          [⟨["toppings"], toppingsMessage⟩] := by
        simp [checkToppings, toppingElemIssues_map_str, any_map_str, hforb]
      rw [h1, h2, h3, h4]
      rfl
    rw [validate_fail_of_cons _ _ _ hiss]
    decide
  · decide

theorem claim_forbidden_topping_combined_message_witness :
    validatePizza (.obj [("size", Json.num 12), ("crust", Json.str "normal"),
        ("toppings", Json.arr [Json.str "SPINACH"])]) =
      .notPizza ("toppings: " ++ toppingsMessage) ∧
    toppingsMessage =
      "the following toppings are invalid: spinach, mushroom, chicken, turkey." :=
  claim_forbidden_topping_combined_message _ 12 "normal" none ["SPINACH"]
    rfl (by norm_num) rfl (Or.inr rfl) rfl rfl (by decide)

/-- C3 counterexample: an input with size missing fails, but with the Zod
"Required" message, which does not contain the text
"pizza size must be a positive number" the claim promises for every size
violation. -/
theorem claim_size_message_counterexample :
    validatePizza (.obj [("crust", Json.str "normal")]) = .notPizza "size: Required" ∧
    strContains "size: Required" "pizza size must be a positive number" = false :=
  ⟨by decide, by decide⟩

/-- When the size check yields one issue, it heads the issue list. -/
theorem pizzaIssues_size_cons (fields : List (String × Json)) (i : Issue)
    (hm : checkSize (lookupField fields "size") = [i]) :
    pizzaIssues (.obj fields) =
      i :: (checkCrust (lookupField fields "crust") ++
        checkIsDeepDish (lookupField fields "isDeepDish") ++
        checkToppings (lookupField fields "toppings")) := by
  simp [pizzaIssues, pizzaIssuesObj, hm]

/-- C3 (amended): whenever size is missing, not a number, or a
non-positive number, validatePizza fails and the first reported issue is
the size issue (path "size"); its message is
"pizza size must be a positive number" exactly when size is present as a
non-positive number, and otherwise is the Zod default for a missing or
ill-typed field. -/
theorem claim_size_violations_amended (fields : List (String × Json))
    (h : sizeViolation (lookupField fields "size") = true) :
    (∃ e, validatePizza (.obj fields) = .notPizza e) ∧
    ∃ m rest, pizzaIssues (.obj fields) = ⟨["size"], m⟩ :: rest ∧
      (m = "pizza size must be a positive number" ↔
        ∃ q, lookupField fields "size" = some (Json.num q) ∧ q ≤ 0) := by
  have hcons : ∃ m rest, pizzaIssues (.obj fields) = ⟨["size"], m⟩ :: rest ∧
      (m = "pizza size must be a positive number" ↔
        ∃ q, lookupField fields "size" = some (Json.num q) ∧ q ≤ 0) := by
    match ho : lookupField fields "size" with
    | none =>
        refine ⟨"Required", _, pizzaIssues_size_cons fields _ (by rw [ho]; rfl), ?_⟩
        refine ⟨fun hm => absurd hm (by decide), ?_⟩
        rintro ⟨q, hq, -⟩
        exact absurd hq (by simp)
    | some .undef =>
        refine ⟨"Required", _, pizzaIssues_size_cons fields _ (by rw [ho]; rfl), ?_⟩
        refine ⟨fun hm => absurd hm (by decide), ?_⟩
        rintro ⟨q, hq, -⟩
        exact absurd hq (by simp)
    | some .null =>
        refine ⟨"Expected number, received null", _,
          pizzaIssues_size_cons fields _ (by rw [ho]; rfl), ?_⟩
        refine ⟨fun hm => absurd hm (by decide), ?_⟩
        rintro ⟨q, hq, -⟩
        exact absurd hq (by simp)
    | some (.bool b) =>
        refine ⟨"Expected number, received boolean", _,
          pizzaIssues_size_cons fields _ (by rw [ho]; rfl), ?_⟩
        refine ⟨fun hm => absurd hm (by decide), ?_⟩
        rintro ⟨q, hq, -⟩
        exact absurd hq (by simp)
    | some (.str s) =>
        refine ⟨"Expected number, received string", _,
          pizzaIssues_size_cons fields _ (by rw [ho]; rfl), ?_⟩
        refine ⟨fun hm => absurd hm (by decide), ?_⟩
        rintro ⟨q, hq, -⟩
        exact absurd hq (by simp)
    | some (.arr xs) =>
        refine ⟨"Expected number, received array", _,
          pizzaIssues_size_cons fields _ (by rw [ho]; rfl), ?_⟩
        refine ⟨fun hm => absurd hm (by decide), ?_⟩
        rintro ⟨q, hq, -⟩
        exact absurd hq (by simp)
    | some (.obj f) =>
        refine ⟨"Expected number, received object", _,
          pizzaIssues_size_cons fields _ (by rw [ho]; rfl), ?_⟩
        refine ⟨fun hm => absurd hm (by decide), ?_⟩
        rintro ⟨q, hq, -⟩
        exact absurd hq (by simp)
    | some (.num q) =>
        have hle : q ≤ 0 := by
          rw [ho] at h
          simpa [sizeViolation] using h
        refine ⟨"pizza size must be a positive number", _,
          pizzaIssues_size_cons fields _ (by rw [ho]; simp [checkSize, not_lt.mpr hle]), ?_⟩
        exact ⟨fun _ => ⟨q, rfl, hle⟩, fun _ => rfl⟩
  obtain ⟨m, rest, hc, hiff⟩ := hcons
  refine ⟨validate_fail_of_ne_nil _ ?_, m, rest, hc, hiff⟩
  rw [hc]
  exact List.cons_ne_nil _ _

theorem claim_size_violations_amended_witness :
    sizeViolation (lookupField [("size", Json.num 0), ("crust", Json.str "normal")] "size")
        = true ∧
    ((∃ e, validatePizza (.obj [("size", Json.num 0), ("crust", Json.str "normal")]) =
        .notPizza e) ∧
      ∃ m rest,
        pizzaIssues (.obj [("size", Json.num 0), ("crust", Json.str "normal")]) =
          ⟨["size"], m⟩ :: rest ∧
        (m = "pizza size must be a positive number" ↔
          ∃ q, lookupField [("size", Json.num 0), ("crust", Json.str "normal")] "size" =
              some (Json.num q) ∧ q ≤ 0)) :=
  ⟨by decide, claim_size_violations_amended _ (by decide)⟩

/-- C4: every failing validation returns the renderings of all collected
issues joined with "; ", and on objects the issues are collected in the
declaration order of the fields: size, crust, isDeepDish, toppings. -/
theorem claim_errors_joined_in_declaration_order (j : Json) (e : String)
    (h : validatePizza j = .notPizza e) :
    e = String.intercalate "; " ((pizzaIssues j).map renderIssue) ∧
    ∀ fields, j = .obj fields →
      pizzaIssues j =
        checkSize (lookupField fields "size") ++ checkCrust (lookupField fields "crust") ++
        checkIsDeepDish (lookupField fields "isDeepDish") ++
        checkToppings (lookupField fields "toppings") := by
  constructor
  · by_cases he : (pizzaIssues j).isEmpty
    · simp [validatePizza, he] at h
    · simp [validatePizza, he] at h
      exact h.symm
  · rintro fields rfl
    rfl

set_option maxRecDepth 8192 in
theorem claim_errors_joined_in_declaration_order_witness :
    validatePizza (.obj [("size", Json.num 0), ("crust", Json.str "thin"),
        ("toppings", Json.arr [Json.str "spinach"])]) =
      .notPizza "size: pizza size must be a positive number; crust: crust must be either \"stuffed\" or \"normal\"; toppings: the following toppings are invalid: spinach, mushroom, chicken, turkey." ∧
    ("size: pizza size must be a positive number; crust: crust must be either \"stuffed\" or \"normal\"; toppings: the following toppings are invalid: spinach, mushroom, chicken, turkey." =
        String.intercalate "; "
          ((pizzaIssues (.obj [("size", Json.num 0), ("crust", Json.str "thin"),
              ("toppings", Json.arr [Json.str "spinach"])])).map renderIssue) ∧
      ∀ fields,
        (Json.obj [("size", Json.num 0), ("crust", Json.str "thin"),
            ("toppings", Json.arr [Json.str "spinach"])]) = .obj fields →
        pizzaIssues (.obj [("size", Json.num 0), ("crust", Json.str "thin"),
            ("toppings", Json.arr [Json.str "spinach"])]) =
          checkSize (lookupField fields "size") ++
          checkCrust (lookupField fields "crust") ++
          checkIsDeepDish (lookupField fields "isDeepDish") ++
          checkToppings (lookupField fields "toppings")) :=
  ⟨by decide, claim_errors_joined_in_declaration_order _ _ (by decide)⟩

/-- C5: a present but ill-typed toppings value (not an array, or with a
non-string element) fails validation, every non-string element is
reported as an issue carrying its index path, and the combined
forbidden-toppings message is suppressed: it appears nowhere among the
reported issues. -/
theorem claim_illtyped_toppings_indexed_and_suppressed
    (fields : List (String × Json)) (v : Json)
    (hv : lookupField fields "toppings" = some v)
    (hbad : toppingsIllTyped v = true) :
    (∃ e, validatePizza (.obj fields) = .notPizza e) ∧
    (∀ i ∈ pizzaIssues (.obj fields), i.message ≠ toppingsMessage) ∧
    (∀ xs k x, v = Json.arr xs → xs.get? k = some x → isStrJson x = false →
      (⟨["toppings", toString k], elemTypeMsg x⟩ : Issue) ∈ pizzaIssues (.obj fields)) := by
  have htne : checkToppings (lookupField fields "toppings") ≠ [] := by
    rw [hv]
    match v, hbad with
    | .null, _ => simp [checkToppings]
    | .bool b, _ => simp [checkToppings]
    | .num q, _ => simp [checkToppings]
    | .str s, _ => simp [checkToppings]
    | .obj f, _ => simp [checkToppings]
    | .undef, hbad => simp [toppingsIllTyped] at hbad
    | .arr xs, hbad =>
        have hne := toppingElemIssues_ne_nil xs 0 (by simpa [toppingsIllTyped] using hbad)
        have h2 : checkToppings (some (Json.arr xs)) = toppingElemIssues 0 xs := by
          simp [checkToppings, hne]
        rw [h2]
        exact hne
  refine ⟨?_, ?_, ?_⟩
  · apply validate_fail_of_ne_nil
    simp only [pizzaIssues, pizzaIssuesObj]
    intro hnil
    exact htne (List.append_eq_nil.mp hnil).2
  · intro i hi
    simp only [pizzaIssues, pizzaIssuesObj] at hi
    rcases List.mem_append.mp hi with h3 | h4
    · rcases List.mem_append.mp h3 with h2 | h3
      · rcases List.mem_append.mp h2 with h1 | h2
        · exact checkSize_msgs _ i h1
        · exact checkCrust_msgs _ i h2
      · exact checkIsDeepDish_msgs _ i h3
    · rw [hv] at h4
      exact checkToppings_illTyped_msgs v hbad i h4
  · rintro xs k x rfl hget hx
    have hne : toppingElemIssues 0 xs ≠ [] := by
      apply toppingElemIssues_ne_nil
      exact List.any_eq_true.mpr ⟨x, List.get?_mem hget, by simp [hx]⟩
    have h2 : checkToppings (some (Json.arr xs)) = toppingElemIssues 0 xs := by
      simp [checkToppings, hne]
    have hmem := mem_toppingElemIssues xs 0 k x hget hx
    rw [Nat.zero_add] at hmem
    simp only [pizzaIssues, pizzaIssuesObj]
    apply List.mem_append_right
    rw [hv, h2]
    exact hmem

theorem claim_illtyped_toppings_indexed_and_suppressed_witness :
    (∃ e,
      validatePizza (.obj [("size", Json.num 12), ("crust", Json.str "normal"),
          ("toppings", Json.arr [Json.num 1])]) = .notPizza e) ∧
    (∀ i ∈ pizzaIssues (.obj [("size", Json.num 12), ("crust", Json.str "normal"),
        ("toppings", Json.arr [Json.num 1])]), i.message ≠ toppingsMessage) ∧
    (⟨["toppings", toString 0], elemTypeMsg (Json.num 1)⟩ : Issue) ∈
      pizzaIssues (.obj [("size", Json.num 12), ("crust", Json.str "normal"),
        ("toppings", Json.arr [Json.num 1])]) := by
  have h := claim_illtyped_toppings_indexed_and_suppressed
    [("size", Json.num 12), ("crust", Json.str "normal"), ("toppings", Json.arr [Json.num 1])]
    (Json.arr [Json.num 1]) rfl (by decide)
  exact ⟨h.1, h.2.1, h.2.2 [Json.num 1] 0 (Json.num 1) rfl rfl rfl⟩

/-- C6: validatePizza is total over all modelled JavaScript values (null,
undefined, numbers, strings, arrays, objects included) and always
returns one of the two variants of the result union; as a Lean function
of its input it is pure and deterministic by construction, matching the
no-throw, no-side-effect contract. -/
theorem claim_validatePizza_total_union (j : Json) :
    (∃ p, validatePizza j = .isPizza p) ∨ (∃ e, validatePizza j = .notPizza e) := by
  by_cases he : (pizzaIssues j).isEmpty
  · exact Or.inl ⟨buildPizza j, by simp [validatePizza, he]⟩
  · exact Or.inr ⟨String.intercalate "; " ((pizzaIssues j).map renderIssue),
      by simp [validatePizza, he]⟩

/-- When the normalized output satisfies the schema invariants,
re-reading it as JSON and validating reproduces it exactly. -/
theorem revalidate_pizza (p : Pizza) (hpos : 0 < p.size)
    (hcv : p.crust = "stuffed" ∨ p.crust = "normal")
    (hforb : (p.toppings.getD []).all (fun t => !isForbidden t) = true) :
    validatePizza (pizzaToJson p) = .isPizza p := by
  have h := validate_success_of_fields (pizzaFields p) p.size p.crust
    (some p.isDeepDish) p.toppings
    (lookupField_pizzaFields_size p) hpos (lookupField_pizzaFields_crust p) hcv
    (lookupField_pizzaFields_isDeepDish p) (lookupField_pizzaFields_toppings p) hforb
  simpa [pizzaToJson] using h

/-- C7: re-validating the normalized output of a successful validation
(with the isDeepDish default now explicit) succeeds and returns the same
record identically. -/
theorem claim_revalidation_idempotent (j : Json) (p : Pizza)
    (h : validatePizza j = .isPizza p) :
    validatePizza (pizzaToJson p) = .isPizza p := by
  obtain ⟨fields, rfl, hnil, hp⟩ := validate_isPizza_inv j p h
  rw [pizzaIssuesObj] at hnil
  obtain ⟨habc, hd⟩ := List.append_eq_nil.mp hnil
  obtain ⟨hab, hc3⟩ := List.append_eq_nil.mp habc
  obtain ⟨ha, hb⟩ := List.append_eq_nil.mp hab
  obtain ⟨q, hq, hqpos⟩ := checkSize_nil _ ha
  obtain ⟨c, hcEq, hcv⟩ := checkCrust_nil _ hb
  subst hp
  apply revalidate_pizza
  · simp only [buildPizza]
    rw [hq]
    exact hqpos
  · simp only [buildPizza]
    rw [hcEq]
    exact hcv
  · rcases checkToppings_nil _ hd with (htop | htop) | ⟨xs, htop, hels, hany⟩
    · simp [buildPizza, htop]
    · simp [buildPizza, htop]
    · simp only [buildPizza]
      rw [htop]
      rw [List.all_eq_true]
      rintro t ht
      rcases List.mem_map.mp (by simpa using ht) with ⟨x, hx, rfl⟩
      rcases toppingElemIssues_nil_all_str xs 0 hels x hx with ⟨s, rfl⟩
      have hfals : jsonIsForbiddenTopping (Json.str s) = false := by
        rw [List.any_eq_false] at hany
        simpa using hany _ hx
      simp [jsonToStr, jsonIsForbiddenTopping] at hfals ⊢
      exact hfals

theorem claim_revalidation_idempotent_witness :
    validatePizza (pizzaToJson ⟨12, "normal", false, none⟩) =
      .isPizza ⟨12, "normal", false, none⟩ :=
  claim_revalidation_idempotent (.obj [("size", Json.num 12), ("crust", Json.str "normal")])
    _ (by decide)

/-- C8: for a file whose JSON content validates, the CLI writes the
success marker and the two-space pretty-printed normalized record to
stdout (its key list omitting toppings exactly when the record has
none) and exits 0; for content failing validation it writes the failure
marker and the joined error string to stderr and exits 1. -/
theorem claim_cli_valid_and_invalid_output (path : String) (j : Json) :
    (∀ p, validatePizza j = .isPizza p →
      runCli (.file path (.content (.ok j))) =
        ⟨["✓ Valid pizza!", stringifyPizza p], [], 0⟩ ∧
      (pizzaEntries p).map Prod.fst =
        (if p.toppings.isSome then ["size", "crust", "isDeepDish", "toppings"]
         else ["size", "crust", "isDeepDish"])) ∧
    (∀ e, validatePizza j = .notPizza e →
      runCli (.file path (.content (.ok j))) = ⟨[], ["✗ Invalid pizza:", e], 1⟩) := by
  constructor
  · intro p hp
    constructor
    · simp [runCli, hp]
    · cases h : p.toppings <;> simp [pizzaEntries, h]
  · intro e he
    simp [runCli, he]

theorem claim_cli_valid_and_invalid_output_witness :
    runCli (.file "pizza.json" (.content (.ok (Json.obj
        [("size", Json.num 14), ("crust", Json.str "stuffed"), ("isDeepDish", Json.bool true),
         ("toppings", Json.arr [Json.str "pepperoni", Json.str "bacon"])])))) =
      ⟨["✓ Valid pizza!", stringifyPizza ⟨14, "stuffed", true, some ["pepperoni", "bacon"]⟩],
        [], 0⟩ ∧
    runCli (.file "bad.json" (.content (.ok (Json.num 3)))) =
      ⟨[], ["✗ Invalid pizza:", "Expected object, received number"], 1⟩ :=
  ⟨((claim_cli_valid_and_invalid_output "pizza.json" _).1 _ (by decide)).1,
   (claim_cli_valid_and_invalid_output "bad.json" _).2 _ (by decide)⟩

/-- C9: a nonexistent file path and syntactically invalid JSON produce
exactly the classified stderr messages and exit code 1, and exit code 0
occurs exactly for help or a successfully validated file. -/
theorem claim_cli_operational_errors :
    (∀ path, runCli (.file path .notFound) =
        ⟨[], ["Error: File \"" ++ path ++ "\" not found."], 1⟩) ∧
    (∀ path msg, runCli (.file path (.content (.jsonError msg))) =
        ⟨[], ["Error: Invalid JSON in file \"" ++ path ++ "\".", msg], 1⟩) ∧
    (∀ inv, (runCli inv).exitCode = 0 ↔
      (inv = .help ∨ ∃ path j p, inv = .file path (.content (.ok j)) ∧
        validatePizza j = .isPizza p)) := by
  refine ⟨fun path => rfl, fun path msg => rfl, fun inv => ?_⟩
  match inv with
  | .help => simp [runCli]
  | .file path .notFound => simp [runCli]
  | .file path (.readError msg) => simp [runCli]
  | .file path (.unknownThrown s) => simp [runCli]
  | .file path (.content (.jsonError msg)) => simp [runCli]
  | .file path (.content (.ok j)) =>
      match hv : validatePizza j with
      | .isPizza p =>
          simp only [runCli, hv]
          exact ⟨fun _ => Or.inr ⟨path, j, p, rfl, hv⟩, fun _ => trivial⟩
      | .notPizza e => simp [runCli, hv]

/-- C10: keys other than the four declared ones never cause an error and
never influence the result: removing such a key from anywhere in the
object leaves the outcome of validatePizza unchanged (and the success
record, built from the four declared fields only, carries no other
field). -/
theorem claim_unknown_keys_stripped (pre post : List (String × Json)) (k : String) (v : Json)
    (hk : k ∉ (["size", "crust", "isDeepDish", "toppings"] : List String)) :
    validatePizza (.obj (pre ++ (k, v) :: post)) = validatePizza (.obj (pre ++ post)) := by
  have hne : ∀ k', k' ∈ (["size", "crust", "isDeepDish", "toppings"] : List String) →
      k ≠ k' := by
    intro k' hk' he
    exact hk (he ▸ hk')
  apply validatePizza_obj_congr <;>
    exact lookupField_insert_ne pre post k v _ (hne _ (by simp))

theorem claim_unknown_keys_stripped_witness :
    validatePizza (.obj ([("size", Json.num 12)] ++
        ("cheese", Json.str "extra") :: [("crust", Json.str "normal")])) =
      validatePizza (.obj ([("size", Json.num 12)] ++ [("crust", Json.str "normal")])) :=
  claim_unknown_keys_stripped [("size", Json.num 12)] [("crust", Json.str "normal")]
    "cheese" (Json.str "extra") (by decide)
